import Mathlib

/-!
# dsmr-prometheus-adapter: the scrape handler

A shallow embedding of `dsmr-adapter.go`: the four gauge families held by the
process-wide registry, the five classification rules that the body of the
`for` loop of `handle` applies to every measurement, and `handle` itself with
its upstream call made an explicit input.

Conventions.
* A Go `string` is a list of characters.  Measurement names are produced by
  `encoding/json`, which always yields valid UTF-8 text; on such text the byte
  level operations of package `strings` used here (`HasPrefix`, `HasSuffix`,
  `Index`, `Contains`, `Replace`) coincide with the same operations on the
  sequence of characters, and `GaugeVec.With` never rejects a label value.
* A `float64` is carried as its IEEE-754 bit pattern.  The handler never
  computes with a value, it only moves it from a measurement into a gauge
  (`Gauge.Set` stores the bit pattern).
* A label combination of a `GaugeVec` for which no child gauge has been created
  yet reads `none`; `With(...)` creates the child, `Set` stores the value.
-/

namespace Dsmr

/-- Go `string`, as the sequence of its characters. -/
abbrev GoString := List Char

/-- Go `float64`, identified by its bit pattern. -/
structure Float64 where
  bits : Nat
deriving DecidableEq, Repr

/-! ## Package `strings` -/

/-- Go `strings.HasPrefix(s, pre)`: `len(s) >= len(pre) && s[:len(pre)] == pre`. -/
def HasPrefix (s pre : GoString) : Bool :=
  decide (pre.length ≤ s.length) && s.take pre.length == pre

/-- Go `strings.HasSuffix(s, suf)`:
`len(s) >= len(suf) && s[len(s)-len(suf):] == suf`. -/
def HasSuffix (s suf : GoString) : Bool :=
  decide (suf.length ≤ s.length) && s.drop (s.length - suf.length) == suf

/-- Go `strings.Index(s, substr)`: the position of the first instance of
`substr` in `s`; `none` stands for the result `-1`. -/
def Index : GoString → GoString → Option Nat
  | [], substr => if HasPrefix [] substr then some 0 else none
  | c :: t, substr =>
    if HasPrefix (c :: t) substr then some 0 else (Index t substr).map (· + 1)

/-- Go `strings.Contains(s, substr)`: `Index(s, substr) >= 0`. -/
def Contains (s substr : GoString) : Bool :=
  (Index s substr).isSome

/-- Go `strings.Replace(s, old, new, n)` for `n ≥ 0` and a non-empty `old` (every
call in the program passes a non-empty literal and `n = 1`): the first `n`
non-overlapping instances of `old` are replaced by `new`. -/
def Replace (s old new : GoString) : Nat → GoString
  | 0 => s
  | n + 1 =>
    match Index s old with
    | none => s
    | some j => s.take j ++ new ++ Replace (s.drop (j + old.length)) old new n

/-! ## Data model -/

/-- The Go struct `Measurement`. -/
structure Measurement where
  Name : GoString
  Value : Float64
  Unit : GoString
deriving DecidableEq, Repr

/-- The Go struct `Response`. -/
structure Response where
  Actual : List Measurement
deriving DecidableEq, Repr

/-- The gauges registered in `reg`: the three gauge vectors `voltage` (label
`phase`), `power` (labels `direction`, `phase`) and `energyTransported` (labels
`direction`, `tariff`), each a map from label values to the value of the child
gauge, and the scalar gauge `gasDelivered`. -/
structure Registry where
  voltage : GoString → Option Float64
  power : GoString × GoString → Option Float64
  energyTransported : GoString × GoString → Option Float64
  gasDelivered : Float64

/-- The registry at process start: no child gauge exists, the scalar gauge is 0. -/
def Registry.init : Registry where
  voltage := fun _ => none
  power := fun _ => none
  energyTransported := fun _ => none
  gasDelivered := ⟨0⟩

/-- The statement `voltage.With(Labels{"phase": phase}).Set(v)`. -/
def Registry.setVoltage (r : Registry) (phase : GoString) (v : Float64) : Registry :=
  { r with voltage := Function.update r.voltage phase (some v) }

/-- The statement `power.With(Labels{"phase": phase, "direction": direction}).Set(v)`. -/
def Registry.setPower (r : Registry) (direction phase : GoString) (v : Float64) :
    Registry :=
  { r with power := Function.update r.power (direction, phase) (some v) }

/-- The statement
`energyTransported.With(Labels{"direction": direction, "tariff": tariff}).Set(v)`. -/
def Registry.setEnergyTransported (r : Registry) (direction tariff : GoString)
    (v : Float64) : Registry :=
  { r with
    energyTransported := Function.update r.energyTransported (direction, tariff) (some v) }

/-- The statement `gasDelivered.Set(v)`. -/
def Registry.setGasDelivered (r : Registry) (v : Float64) : Registry :=
  { r with gasDelivered := v }

/-! ## The loop of `handle` -/

/-- The local `direction` of the energy rule (lines 119-123). -/
def energyDirection (name : GoString) : GoString :=
  if Contains name "_delivered_".data then "delivered".data else "returned".data

/-- The local `tariff` of the energy rule (lines 125-129). -/
def energyTariff (name : GoString) : GoString :=
  if HasSuffix name "2".data then "high".data else "low".data

/-- The body of the `for` loop of `handle` (lines 100-139): five `if` statements
executed one after the other on the same `element`. -/
def handleElement (element : Measurement) (r : Registry) : Registry :=
  let r :=
    if HasPrefix element.Name "voltage_".data then
      r.setVoltage (Replace element.Name "voltage_".data "".data 1) element.Value
    else r
  let r :=
    if HasPrefix element.Name "power_delivered_".data then
      r.setPower "delivered".data (Replace element.Name "power_delivered_".data "".data 1)
        element.Value
    else r
  let r :=
    if HasPrefix element.Name "power_returned_".data then
      r.setPower "returned".data (Replace element.Name "power_returned_".data "".data 1)
        element.Value
    else r
  let r :=
    if HasPrefix element.Name "energy_".data then
      r.setEnergyTransported (energyDirection element.Name) (energyTariff element.Name)
        element.Value
    else r
  if element.Name = "gas_delivered".data then r.setGasDelivered element.Value else r

/-- The loop `for _, element := range response.Actual` (lines 96-140). -/
def handleElements (actual : List Measurement) (r : Registry) : Registry :=
  actual.foldl (fun acc element => handleElement element acc) r

/-! ## The request handler -/

/-- What `http.Get` returns when it succeeds: the status code of the response
and the result of `io.ReadAll(resp.Body)`. -/
structure HttpResponse where
  StatusCode : Nat
  Body : Except String (List Nat)

/-- The upstream device as the handler sees it during one request: the result
of `http.Get(baseUrl + "/api/v1/sm/actual")`, and `json.Unmarshal` as the
function that takes the body and the destination struct to the struct it leaves
behind and the error it returns (`encoding/json` is library code). -/
structure Upstream where
  get : Except String HttpResponse
  unmarshal : List Nat → Response → Response × Option String

/-- How one call of `handle` ends.  `exit code reg`: `log.Fatal` printed the
error and called `os.Exit(code)`, no response was written, and `reg` is the
registry at that moment.  `respond status reg`: `handler.ServeHTTP` wrote a
response with that status, rendered from the registry `reg`, and the process
goes on with `reg`. -/
inductive Outcome where
  | exit (code : Nat) (reg : Registry)
  | respond (status : Nat) (reg : Registry)

/-- The function `handle` (lines 75-143).  The error returned by
`json.Unmarshal` is discarded (line 94). -/
def handle (up : Upstream) (reg : Registry) : Outcome :=
  match up.get with
  | .error _ => .exit 1 reg
  | .ok resp =>
    match resp.Body with
    | .error _ => .exit 1 reg
    | .ok body =>
      let response := (up.unmarshal body ⟨[]⟩).1
      .respond 200 (handleElements response.Actual reg)

/-! ## A uniform view of the gauges -/

/-- A family together with a label combination: one gauge of the registry. -/
inductive GaugeKey where
  | voltage (phase : GoString)
  | power (direction phase : GoString)
  | energyTransported (direction tariff : GoString)
  | gasDelivered
deriving DecidableEq, Repr

/-- The value of a gauge; `none` when the child gauge does not exist. -/
def Registry.get (r : Registry) : GaugeKey → Option Float64
  | .voltage phase => r.voltage phase
  | .power direction phase => r.power (direction, phase)
  | .energyTransported direction tariff => r.energyTransported (direction, tariff)
  | .gasDelivered => some r.gasDelivered

/-- One `With(...).Set(v)` (or `Set(v)` for the scalar gauge). -/
def Registry.set (r : Registry) (k : GaugeKey) (v : Float64) : Registry :=
  match k with
  | .voltage phase => r.setVoltage phase v
  | .power direction phase => r.setPower direction phase v
  | .energyTransported direction tariff => r.setEnergyTransported direction tariff v
  | .gasDelivered => r.setGasDelivered v

/-- The gauges that the loop body sets for a measurement of the given name, in
the order of the five `if` statements. -/
def keysOf (name : GoString) : List GaugeKey :=
  (if HasPrefix name "voltage_".data then
    [GaugeKey.voltage (Replace name "voltage_".data "".data 1)] else []) ++
  (if HasPrefix name "power_delivered_".data then
    [GaugeKey.power "delivered".data (Replace name "power_delivered_".data "".data 1)]
    else []) ++
  (if HasPrefix name "power_returned_".data then
    [GaugeKey.power "returned".data (Replace name "power_returned_".data "".data 1)]
    else []) ++
  (if HasPrefix name "energy_".data then
    [GaugeKey.energyTransported (energyDirection name) (energyTariff name)] else []) ++
  (if name = "gas_delivered".data then [GaugeKey.gasDelivered] else [])

/-- The conditions of the five `if` statements of the loop body, in order. -/
def rulesMatched (name : GoString) : List Bool :=
  [HasPrefix name "voltage_".data, HasPrefix name "power_delivered_".data,
   HasPrefix name "power_returned_".data, HasPrefix name "energy_".data,
   decide (name = "gas_delivered".data)]

/-- The predicate "the name of `m` maps to the gauge `k`". -/
def mapsTo (k : GaugeKey) (m : Measurement) : Bool :=
  decide (k ∈ keysOf m.Name)

/-! ## Reading the outcome of a request -/

/-- The status of the response written to the scraper, if one was written. -/
def Outcome.status : Outcome → Option Nat
  | .exit _ _ => none
  | .respond status _ => some status

/-- Whether a failure (server error, 5xx) response was written. -/
def Outcome.isServerError : Outcome → Bool
  | .exit _ _ => false
  | .respond status _ => decide (500 ≤ status ∧ status < 600)

/-- Whether the process is still running after the request. -/
def Outcome.keepsRunning : Outcome → Bool
  | .exit _ _ => false
  | .respond _ _ => true

/-- The registry when the request ends. -/
def Outcome.registry : Outcome → Registry
  | .exit _ reg => reg
  | .respond _ reg => reg

/-- The upstream HTTP call fails: `http.Get` returns an error, or reading the
response body does. -/
def Upstream.callFails (up : Upstream) : Bool :=
  match up.get with
  | .error _ => true
  | .ok resp =>
    match resp.Body with
    | .error _ => true
    | .ok _ => false

/-- The registry from which the response was rendered, if one was written. -/
def Outcome.rendered : Outcome → Option Registry
  | .exit _ _ => none
  | .respond _ reg => some reg

/-! ## Several scrapes -/

/-- Scrapes handled one after the other: the loop of `handle` runs on each
snapshot in turn, on the registry the previous request left. -/
def handleSnapshots (snapshots : List (List Measurement)) (r : Registry) : Registry :=
  snapshots.foldl (fun acc actual => handleElements actual acc) r

/-- The single-gauge writes that the loop performs for a snapshot, in order:
for every measurement one `With(...).Set(Value)` per rule that fires. -/
def writesOf : List Measurement → List (GaugeKey × Float64)
  | [] => []
  | m :: ms => (keysOf m.Name).map (fun k => (k, m.Value)) ++ writesOf ms

/-- A sequence of single-gauge writes performed on the registry. -/
def applyWrites (ws : List (GaugeKey × Float64)) (r : Registry) : Registry :=
  ws.foldl (fun acc w => acc.set w.1 w.2) r

/-- The relation `Interleaving ls ws`: the sequence `ws` is a merge of the
sequences `ls`, each of which keeps its own order.  With `ls` the write
sequences of concurrent requests, `ws` is one order in which the registry can
receive their writes. -/
inductive Interleaving {α : Type} : List (List α) → List α → Prop where
  | done (ls : List (List α)) : (∀ l ∈ ls, l = []) → Interleaving ls []
  | step (before : List (List α)) (w : α) (l : List α) (after : List (List α))
      (ws : List α) :
      Interleaving (before ++ l :: after) ws →
      Interleaving (before ++ (w :: l) :: after) (w :: ws)

/-- The label combinations of the energy_transported family that the energy
rule can produce. -/
def energyLabelDomain : List (GoString × GoString) :=
  [("delivered".data, "low".data), ("delivered".data, "high".data),
   ("returned".data, "low".data), ("returned".data, "high".data)]

/-! ## Process start -/

/-- What `main` does that is visible from outside, in order. -/
inductive Event where
  | fprintfStderr (msg : String)
  | exit (code : Nat)
  | mustRegister (collector : String)
  | handleFunc (pattern : String)
  | logPrintf (msg : String)
  | listenAndServe (addr : String)
  | logFatal (err : String)
deriving DecidableEq, Repr

/-- Go `os.Getenv`: the value of the variable, the empty string when it is not
present. -/
def Getenv (setting : Option GoString) : GoString :=
  match setting with
  | none => []
  | some value => value

/-- The function `main` (lines 57-73), with `baseUrl` initialised from the
environment variable `DSMR_BASE_URL` (line 54).  `served` is what
`http.ListenAndServe` does: `none` when it serves until the process is killed,
`some err` when it returns the error `err`, which `log.Fatal` prints before
`os.Exit(1)`. -/
def main (DSMR_BASE_URL : Option GoString) (served : Option String) : List Event :=
  let baseUrl := Getenv DSMR_BASE_URL
  if baseUrl = "".data then
    [.fprintfStderr "DSMR_BASE_URL is empty", .exit 1]
  else
    [.mustRegister "voltage", .mustRegister "power", .mustRegister "energyTransported",
     .mustRegister "gasDelivered", .handleFunc "/metrics",
     .logPrintf "Server is listening on port 8080", .listenAndServe ":8080"] ++
    (match served with
     | none => []
     | some err => [.logFatal err, .exit 1])

/-! ## Upstream bodies used in the examples -/

/-- The bytes of an ASCII text. -/
def bytesOf (text : String) : List Nat :=
  text.data.map Char.toNat

/-- A body with the single record `voltage_l1 = 1 V`. -/
def voltageBody : List Nat :=
  bytesOf "\x7b\"Actual\":[\x7b\"Name\":\"voltage_l1\",\"Value\":1,\"Unit\":\"V\"\x7d]\x7d"

/-- A body with the records `voltage_l1 = 2 V` and `voltage_l1 = 3 V`. -/
def twoVoltagesBody : List Nat :=
  bytesOf ("\x7b\"Actual\":[\x7b\"Name\":\"voltage_l1\",\"Value\":2,\"Unit\":\"V\"\x7d," ++
    "\x7b\"Name\":\"voltage_l1\",\"Value\":3,\"Unit\":\"V\"\x7d]\x7d")

/-- The `float64` 1, 2 and 3. -/
def one : Float64 := ⟨0x3FF0000000000000⟩

def two : Float64 := ⟨0x4000000000000000⟩

def three : Float64 := ⟨0x4008000000000000⟩

/-- The `float64` 0, the zero value of the field `Value`. -/
def zero : Float64 := ⟨0⟩

/-- A body that is not JSON. -/
def htmlBody : List Nat :=
  bytesOf "<html>"

/-- A body whose single record `voltage_l1` carries the string `x` where a
number is expected. -/
def nonNumericBody : List Nat :=
  bytesOf "\x7b\"Actual\":[\x7b\"Name\":\"voltage_l1\",\"Value\":\"x\",\"Unit\":\"V\"\x7d]\x7d"

/-- An upstream that answers 200 with `htmlBody`: `json.Unmarshal` returns a
syntax error and leaves the destination as it was. -/
def malformedUpstream : Upstream where
  get := .ok ⟨200, .ok htmlBody⟩
  unmarshal := fun _ dst => (dst, some "invalid character '<' looking for beginning of value")

/-- An upstream that answers 200 with `nonNumericBody`: `json.Unmarshal` fills
`Name` and `Unit` of the record, leaves `Value` at its zero value and returns a
type error. -/
def nonNumericUpstream : Upstream where
  get := .ok ⟨200, .ok nonNumericBody⟩
  unmarshal := fun _ _ =>
    (⟨[⟨"voltage_l1".data, zero, "V".data⟩]⟩,
      some "json: cannot unmarshal string into Go struct field Measurement.Actual.Value of type float64")

/-! ## Facts about package `strings` -/

theorem HasPrefix_iff (s pre : GoString) : HasPrefix s pre = true ↔ pre <+: s := by
  unfold HasPrefix
  rw [Bool.and_eq_true, decide_eq_true_iff, beq_iff_eq]
  constructor
  · rintro ⟨-, h⟩
    rw [← h]
    exact List.take_prefix _ _
  · intro h
    exact ⟨h.length_le, List.prefix_iff_eq_take.mp h |>.symm⟩

theorem HasSuffix_iff (s suf : GoString) : HasSuffix s suf = true ↔ suf <:+ s := by
  unfold HasSuffix
  rw [Bool.and_eq_true, decide_eq_true_iff, beq_iff_eq]
  constructor
  · rintro ⟨-, h⟩
    rw [← h]
    exact List.drop_suffix _ _
  · intro h
    exact ⟨h.length_le, List.suffix_iff_eq_drop.mp h |>.symm⟩

theorem HasPrefix_append (pre x : GoString) : HasPrefix (pre ++ x) pre = true :=
  (HasPrefix_iff _ _).mpr (List.prefix_append _ _)

theorem Index_of_HasPrefix (s pre : GoString) (h : HasPrefix s pre = true) :
    Index s pre = some 0 := by
  cases s <;> simp [Index, h]

theorem Index_isSome_iff (s substr : GoString) :
    (Index s substr).isSome = true ↔ substr <:+: s := by
  induction s with
  | nil =>
    simp only [Index]
    split
    · rename_i h
      simpa using (List.IsPrefix.isInfix ((HasPrefix_iff _ _).mp h))
    · rename_i h
      simp only [Option.isSome_none, Bool.false_eq_true, false_iff]
      intro hin
      apply h
      rw [HasPrefix_iff]
      rw [List.infix_nil] at hin
      rw [hin]
  | cons c t ih =>
    simp only [Index]
    split
    · rename_i h
      simpa using (List.IsPrefix.isInfix ((HasPrefix_iff _ _).mp h))
    · rename_i h
      have hmap : (Option.map (fun x => x + 1) (Index t substr)).isSome
          = (Index t substr).isSome := by
        cases Index t substr <;> rfl
      rw [hmap, ih, List.infix_cons_iff]
      constructor
      · exact Or.inr
      · rintro (hp | hi)
        · exact absurd ((HasPrefix_iff _ _).mpr hp) h
        · exact hi

theorem Contains_iff (s substr : GoString) : Contains s substr = true ↔ substr <:+: s :=
  Index_isSome_iff s substr

/-- Replacing the first instance of a prefix by the empty string strips it. -/
theorem Replace_strips (pre x : GoString) : Replace (pre ++ x) pre [] 1 = x := by
  simp [Replace, Index_of_HasPrefix _ _ (HasPrefix_append pre x)]

/-- Two strings that are both a prefix of the same string are comparable. -/
theorem HasPrefix_comparable (s p q : GoString) (hp : HasPrefix s p = true)
    (hq : HasPrefix s q = true) : p <+: q ∨ q <+: p := by
  rw [HasPrefix_iff] at hp hq
  rcases Nat.le_total p.length q.length with h | h
  · exact Or.inl (List.prefix_of_prefix_length_le hp hq h)
  · exact Or.inr (List.prefix_of_prefix_length_le hq hp h)

/-- A string with prefix `p` does not have a prefix `q` incomparable with `p`. -/
theorem HasPrefix_excl {s p q : GoString} (hp : HasPrefix s p = true)
    (hn : ¬ (p <+: q ∨ q <+: p)) : HasPrefix s q = false := by
  cases hq : HasPrefix s q
  · rfl
  · exact absurd (HasPrefix_comparable s p q hp hq) hn

/-! ## The loop body through the uniform view -/

theorem handleElement_eq_foldl (element : Measurement) (r : Registry) :
    handleElement element r
      = (keysOf element.Name).foldl (fun acc k => acc.set k element.Value) r := by
  unfold handleElement keysOf
  split_ifs <;> rfl

theorem keysOf_voltage (name : GoString) (h : HasPrefix name "voltage_".data = true) :
    keysOf name = [GaugeKey.voltage (Replace name "voltage_".data "".data 1)] := by
  have h2 : HasPrefix name "power_delivered_".data = false := HasPrefix_excl h (by decide)
  have h3 : HasPrefix name "power_returned_".data = false := HasPrefix_excl h (by decide)
  have h4 : HasPrefix name "energy_".data = false := HasPrefix_excl h (by decide)
  have h5 : name ≠ "gas_delivered".data := by
    rintro rfl
    revert h
    decide
  simp [keysOf, h, h2, h3, h4, h5]

theorem keysOf_power_delivered (name : GoString)
    (h : HasPrefix name "power_delivered_".data = true) :
    keysOf name
      = [GaugeKey.power "delivered".data (Replace name "power_delivered_".data "".data 1)] := by
  have h1 : HasPrefix name "voltage_".data = false := HasPrefix_excl h (by decide)
  have h3 : HasPrefix name "power_returned_".data = false := HasPrefix_excl h (by decide)
  have h4 : HasPrefix name "energy_".data = false := HasPrefix_excl h (by decide)
  have h5 : name ≠ "gas_delivered".data := by
    rintro rfl
    revert h
    decide
  simp [keysOf, h, h1, h3, h4, h5]

theorem keysOf_power_returned (name : GoString)
    (h : HasPrefix name "power_returned_".data = true) :
    keysOf name
      = [GaugeKey.power "returned".data (Replace name "power_returned_".data "".data 1)] := by
  have h1 : HasPrefix name "voltage_".data = false := HasPrefix_excl h (by decide)
  have h2 : HasPrefix name "power_delivered_".data = false := HasPrefix_excl h (by decide)
  have h4 : HasPrefix name "energy_".data = false := HasPrefix_excl h (by decide)
  have h5 : name ≠ "gas_delivered".data := by
    rintro rfl
    revert h
    decide
  simp [keysOf, h, h1, h2, h4, h5]

theorem keysOf_energy (name : GoString) (h : HasPrefix name "energy_".data = true) :
    keysOf name = [GaugeKey.energyTransported (energyDirection name) (energyTariff name)] := by
  have h1 : HasPrefix name "voltage_".data = false := HasPrefix_excl h (by decide)
  have h2 : HasPrefix name "power_delivered_".data = false := HasPrefix_excl h (by decide)
  have h3 : HasPrefix name "power_returned_".data = false := HasPrefix_excl h (by decide)
  have h5 : name ≠ "gas_delivered".data := by
    rintro rfl
    revert h
    decide
  simp [keysOf, h, h1, h2, h3, h5]

theorem keysOf_gas_delivered : keysOf "gas_delivered".data = [GaugeKey.gasDelivered] := by
  decide

theorem keysOf_unmatched (name : GoString)
    (h1 : HasPrefix name "voltage_".data = false)
    (h2 : HasPrefix name "power_delivered_".data = false)
    (h3 : HasPrefix name "power_returned_".data = false)
    (h4 : HasPrefix name "energy_".data = false)
    (h5 : name ≠ "gas_delivered".data) : keysOf name = [] := by
  simp [keysOf, h1, h2, h3, h4, h5]

/-- Every name sets at most one gauge. -/
theorem keysOf_length_le_one (name : GoString) : (keysOf name).length ≤ 1 := by
  cases h1 : HasPrefix name "voltage_".data
  · cases h2 : HasPrefix name "power_delivered_".data
    · cases h3 : HasPrefix name "power_returned_".data
      · cases h4 : HasPrefix name "energy_".data
        · by_cases h5 : name = "gas_delivered".data
          · rw [h5, keysOf_gas_delivered]
            exact Nat.le_refl 1
          · rw [keysOf_unmatched name h1 h2 h3 h4 h5]
            exact Nat.zero_le 1
        · rw [keysOf_energy name h4]
          exact Nat.le_refl 1
      · rw [keysOf_power_returned name h3]
        exact Nat.le_refl 1
    · rw [keysOf_power_delivered name h2]
      exact Nat.le_refl 1
  · rw [keysOf_voltage name h1]
    exact Nat.le_refl 1

/-- A name sets no gauge, or exactly one. -/
theorem keysOf_nil_or_singleton (name : GoString) :
    keysOf name = [] ∨ ∃ k, keysOf name = [k] := by
  have h := keysOf_length_le_one name
  match hk : keysOf name with
  | [] => exact Or.inl rfl
  | [k] => exact Or.inr ⟨k, rfl⟩
  | _ :: _ :: _ =>
    rw [hk] at h
    simp at h

theorem get_set_self (r : Registry) (k : GaugeKey) (v : Float64) :
    (r.set k v).get k = some v := by
  cases k <;>
    simp [Registry.set, Registry.get, Registry.setVoltage, Registry.setPower,
      Registry.setEnergyTransported, Registry.setGasDelivered]

theorem get_set_of_ne (r : Registry) (k j : GaugeKey) (v : Float64) (h : j ≠ k) :
    (r.set k v).get j = r.get j := by
  cases k <;> cases j <;>
    simp_all [Registry.set, Registry.get, Registry.setVoltage, Registry.setPower,
      Registry.setEnergyTransported, Registry.setGasDelivered, Function.update]

theorem get_handleElement (element : Measurement) (r : Registry) (k : GaugeKey) :
    (handleElement element r).get k
      = if k ∈ keysOf element.Name then some element.Value else r.get k := by
  rw [handleElement_eq_foldl]
  rcases keysOf_nil_or_singleton element.Name with h | ⟨j, h⟩
  · simp [h]
  · rw [h]
    by_cases hk : k = j
    · subst hk
      simp [get_set_self]
    · simp [hk, get_set_of_ne]

theorem handleElements_concat (ms : List Measurement) (m : Measurement) (r : Registry) :
    handleElements (ms ++ [m]) r = handleElement m (handleElements ms r) := by
  simp [handleElements, List.foldl_append]

/-! ## The classification rules -/

/-- C1: for every string `X`, value `v` and prior registry, processing one
measurement named `voltage_` followed by `X` is exactly the write
`voltage{phase = X} := v`: the phase label is the name with only its leading
`voltage_` removed and the gauge holds `v` itself. -/
theorem voltage_rule (X : GoString) (v : Float64) (u : GoString) (r : Registry) :
    handleElement ⟨"voltage_".data ++ X, v, u⟩ r = r.setVoltage X v ∧
    (handleElement ⟨"voltage_".data ++ X, v, u⟩ r).voltage X = some v ∧
    (handleElements [⟨"voltage_".data ++ X, v, u⟩] r).voltage X = some v := by
  have hp : HasPrefix ("voltage_".data ++ X) "voltage_".data = true := HasPrefix_append _ _
  have hrep : Replace ("voltage_".data ++ X) "voltage_".data "".data 1 = X :=
    Replace_strips _ _
  have h : handleElement ⟨"voltage_".data ++ X, v, u⟩ r = r.setVoltage X v := by
    rw [handleElement_eq_foldl]
    simp only [keysOf_voltage _ hp, hrep, List.foldl_cons, List.foldl_nil, Registry.set]
  refine ⟨h, ?_, ?_⟩
  · rw [h]
    simp [Registry.setVoltage]
  · simp only [handleElements, List.foldl_cons, List.foldl_nil]
    rw [h]
    simp [Registry.setVoltage]

/-- C2: for every string `X` and value `v`, a measurement named
`power_delivered_` followed by `X` sets the power gauge with labels
`direction = delivered`, `phase = X` to `v`, and a measurement named
`power_returned_` followed by `X` sets the power gauge with labels
`direction = returned`, `phase = X` to `v`. -/
theorem power_rules (X : GoString) (v : Float64) (u : GoString) (r : Registry) :
    (handleElement ⟨"power_delivered_".data ++ X, v, u⟩ r = r.setPower "delivered".data X v ∧
      (handleElement ⟨"power_delivered_".data ++ X, v, u⟩ r).power ("delivered".data, X)
        = some v) ∧
    (handleElement ⟨"power_returned_".data ++ X, v, u⟩ r = r.setPower "returned".data X v ∧
      (handleElement ⟨"power_returned_".data ++ X, v, u⟩ r).power ("returned".data, X)
        = some v) := by
  have hd : HasPrefix ("power_delivered_".data ++ X) "power_delivered_".data = true :=
    HasPrefix_append _ _
  have hr : HasPrefix ("power_returned_".data ++ X) "power_returned_".data = true :=
    HasPrefix_append _ _
  have hdrep : Replace ("power_delivered_".data ++ X) "power_delivered_".data "".data 1 = X :=
    Replace_strips _ _
  have hrrep : Replace ("power_returned_".data ++ X) "power_returned_".data "".data 1 = X :=
    Replace_strips _ _
  have h1 : handleElement ⟨"power_delivered_".data ++ X, v, u⟩ r
      = r.setPower "delivered".data X v := by
    rw [handleElement_eq_foldl]
    simp only [keysOf_power_delivered _ hd, hdrep, List.foldl_cons, List.foldl_nil,
      Registry.set]
  have h2 : handleElement ⟨"power_returned_".data ++ X, v, u⟩ r
      = r.setPower "returned".data X v := by
    rw [handleElement_eq_foldl]
    simp only [keysOf_power_returned _ hr, hrrep, List.foldl_cons, List.foldl_nil,
      Registry.set]
  refine ⟨⟨h1, ?_⟩, ⟨h2, ?_⟩⟩
  · rw [h1]
    simp [Registry.setPower]
  · rw [h2]
    simp [Registry.setPower]

/-- C3: for every measurement name to which the energy rule applies and every
value `v`, the loop body is exactly one write `energy_transported{d, t} := v`,
where `d` is `delivered` if the name contains `_delivered_` and `returned`
otherwise, and `t` is `high` if the last character of the name is `2` and `low`
otherwise; nothing else about the name enters the labels. -/
theorem energy_rule_labels (name : GoString) (v : Float64) (u : GoString) (r : Registry)
    (h : HasPrefix name "energy_".data = true) :
    ∃ d t : GoString,
      handleElement ⟨name, v, u⟩ r = r.setEnergyTransported d t v ∧
      (handleElement ⟨name, v, u⟩ r).energyTransported (d, t) = some v ∧
      ("_delivered_".data <:+: name → d = "delivered".data) ∧
      (¬ "_delivered_".data <:+: name → d = "returned".data) ∧
      (name.getLast? = some '2' → t = "high".data) ∧
      (name.getLast? ≠ some '2' → t = "low".data) := by
  have hsuf : HasSuffix name "2".data = true ↔ name.getLast? = some '2' := by
    rw [HasSuffix_iff, List.getLast?_eq_some_iff]
    constructor
    · rintro ⟨ys, hys⟩
      exact ⟨ys, hys.symm⟩
    · rintro ⟨ys, hys⟩
      exact ⟨ys, hys.symm⟩
  have hk : handleElement ⟨name, v, u⟩ r
      = r.setEnergyTransported (energyDirection name) (energyTariff name) v := by
    rw [handleElement_eq_foldl]
    simp only [keysOf_energy _ h, List.foldl_cons, List.foldl_nil, Registry.set]
  refine ⟨energyDirection name, energyTariff name, hk, ?_, ?_, ?_, ?_, ?_⟩
  · rw [hk]
    simp [Registry.setEnergyTransported]
  · intro hc
    simp [energyDirection, (Contains_iff _ _).mpr hc]
  · intro hc
    have : Contains name "_delivered_".data = false := by
      cases hb : Contains name "_delivered_".data
      · rfl
      · exact absurd ((Contains_iff _ _).mp hb) hc
    simp [energyDirection, this]
  · intro hl
    simp [energyTariff, hsuf.mpr hl]
  · intro hl
    have : HasSuffix name "2".data = false := by
      cases hb : HasSuffix name "2".data
      · rfl
      · exact absurd (hsuf.mp hb) hl
    simp [energyTariff, this]

/-- The two examples of C3: `energy_delivered_tariff1` writes
`{delivered, low}` and `energy_returned_tariff2` writes `{returned, high}`. -/
theorem energy_rule_labels_witness :
    (HasPrefix "energy_delivered_tariff1".data "energy_".data = true ∧
      (handleElement ⟨"energy_delivered_tariff1".data, ⟨7⟩, "kWh".data⟩
        Registry.init).energyTransported ("delivered".data, "low".data) = some ⟨7⟩) ∧
    (HasPrefix "energy_returned_tariff2".data "energy_".data = true ∧
      (handleElement ⟨"energy_returned_tariff2".data, ⟨9⟩, "kWh".data⟩
        Registry.init).energyTransported ("returned".data, "high".data) = some ⟨9⟩) := by
  refine ⟨⟨by decide, ?_⟩, ⟨by decide, ?_⟩⟩
  · obtain ⟨d, t, -, hv, hd, -, -, ht⟩ :=
      energy_rule_labels "energy_delivered_tariff1".data ⟨7⟩ "kWh".data Registry.init
        (by decide)
    rw [← hd (by decide), ← ht (by decide)]
    exact hv
  · obtain ⟨d, t, -, hv, -, hd, ht, -⟩ :=
      energy_rule_labels "energy_returned_tariff2".data ⟨9⟩ "kWh".data Registry.init
        (by decide)
    rw [← hd (by decide), ← ht (by decide)]
    exact hv

/-- C4, as stated, fails: the name `total_energy_2` contains `energy_`, yet
processing it from the initial registry changes nothing, and no gauge of the
energy_transported family exists afterwards. -/
theorem energy_rule_contains_counterexample :
    Contains "total_energy_2".data "energy_".data = true ∧
    handleElement ⟨"total_energy_2".data, ⟨5⟩, "kWh".data⟩ Registry.init = Registry.init ∧
    ∀ d t : GoString,
      (handleElement ⟨"total_energy_2".data, ⟨5⟩, "kWh".data⟩
        Registry.init).energyTransported (d, t) = none := by
  have h : handleElement ⟨"total_energy_2".data, ⟨5⟩, "kWh".data⟩ Registry.init
      = Registry.init := by
    rw [handleElement_eq_foldl]
    have hk : keysOf "total_energy_2".data = [] := by decide
    simp only [hk, List.foldl_nil]
  refine ⟨by decide, h, ?_⟩
  intro d t
  rw [h]
  rfl

/-- C4, amended: a measurement is classified by the energy rule exactly when
its name starts with `energy_`.  If it does, the loop body is one write to a
gauge of the energy_transported family, which then holds the value; if it does
not (also when `energy_` occurs further on in the name), every gauge of that
family is left as it was. -/
theorem energy_rule_prefix_only (name : GoString) (v : Float64) (u : GoString)
    (r : Registry) :
    ("energy_".data <+: name →
      ∃ d t : GoString, handleElement ⟨name, v, u⟩ r = r.setEnergyTransported d t v ∧
        (handleElement ⟨name, v, u⟩ r).energyTransported (d, t) = some v) ∧
    (¬ "energy_".data <+: name →
      (handleElement ⟨name, v, u⟩ r).energyTransported = r.energyTransported) := by
  constructor
  · intro hp
    have h : HasPrefix name "energy_".data = true := (HasPrefix_iff _ _).mpr hp
    refine ⟨energyDirection name, energyTariff name, ?_, ?_⟩
    · rw [handleElement_eq_foldl]
      simp only [keysOf_energy _ h, List.foldl_cons, List.foldl_nil, Registry.set]
    · rw [handleElement_eq_foldl]
      simp [keysOf_energy _ h, Registry.set, Registry.setEnergyTransported]
  · intro hp
    have h : HasPrefix name "energy_".data = false := by
      cases hb : HasPrefix name "energy_".data
      · rfl
      · exact absurd ((HasPrefix_iff _ _).mp hb) hp
    unfold handleElement
    simp only [h, Bool.false_eq_true, if_false]
    split_ifs <;> rfl

/-- An instance of amended C4 on each side: `energy_returned_tariff2` starts
with `energy_` and is written to the family; `total_energy_2` does not and
leaves the family alone. -/
theorem energy_rule_prefix_only_witness :
    ("energy_".data <+: "energy_returned_tariff2".data ∧
      ∃ d t : GoString,
        handleElement ⟨"energy_returned_tariff2".data, ⟨9⟩, "kWh".data⟩ Registry.init
          = Registry.init.setEnergyTransported d t ⟨9⟩ ∧
        (handleElement ⟨"energy_returned_tariff2".data, ⟨9⟩, "kWh".data⟩
          Registry.init).energyTransported (d, t) = some ⟨9⟩) ∧
    (¬ "energy_".data <+: "total_energy_2".data ∧
      (handleElement ⟨"total_energy_2".data, ⟨5⟩, "kWh".data⟩
        Registry.init).energyTransported = Registry.init.energyTransported) :=
  ⟨⟨by decide,
    (energy_rule_prefix_only "energy_returned_tariff2".data ⟨9⟩ "kWh".data Registry.init).1
      (by decide)⟩,
   ⟨by decide,
    (energy_rule_prefix_only "total_energy_2".data ⟨5⟩ "kWh".data Registry.init).2
      (by decide)⟩⟩

/-- C5: processing a measurement sets the scalar gauge `gas_delivered` if and
only if its name is exactly `gas_delivered`: the gauge is among the gauges
written just in that case, afterwards it holds the measurement's value in that
case and its old value in every other; in particular a name `gas_delivered`
followed by a non-empty `S` leaves it unchanged. -/
theorem gas_rule_exact (name : GoString) (v : Float64) (u : GoString) (r : Registry) :
    (GaugeKey.gasDelivered ∈ keysOf name ↔ name = "gas_delivered".data) ∧
    (name = "gas_delivered".data → (handleElement ⟨name, v, u⟩ r).gasDelivered = v) ∧
    (name ≠ "gas_delivered".data →
      (handleElement ⟨name, v, u⟩ r).gasDelivered = r.gasDelivered) ∧
    (∀ S : GoString, S ≠ [] →
      (handleElement ⟨"gas_delivered".data ++ S, v, u⟩ r).gasDelivered = r.gasDelivered) := by
  have hne : ∀ n : GoString, n ≠ "gas_delivered".data →
      (handleElement ⟨n, v, u⟩ r).gasDelivered = r.gasDelivered := by
    intro n hn
    unfold handleElement
    simp only [hn, if_false]
    split_ifs <;> rfl
  refine ⟨?_, ?_, hne name, ?_⟩
  · constructor
    · intro hmem
      by_contra hn
      unfold keysOf at hmem
      simp only [hn, if_false, List.append_nil] at hmem
      split_ifs at hmem <;> simp at hmem
    · rintro rfl
      rw [keysOf_gas_delivered]
      exact List.mem_singleton_self _
  · rintro rfl
    rw [handleElement_eq_foldl]
    show (List.foldl (fun acc k => acc.set k v) r (keysOf "gas_delivered".data)).gasDelivered = v
    rw [keysOf_gas_delivered]
    rfl
  · intro S hS
    apply hne
    intro heq
    have hlen := congrArg List.length heq
    rw [List.length_append] at hlen
    have : S.length = 0 := by omega
    exact hS (List.length_eq_zero.mp this)

theorem get_handleElements_of_not_mapped (ms : List Measurement) (r : Registry)
    (k : GaugeKey) (h : ∀ m ∈ ms, k ∉ keysOf m.Name) :
    (handleElements ms r).get k = r.get k := by
  induction ms generalizing r with
  | nil => rfl
  | cons m ms ih =>
    have hm : k ∉ keysOf m.Name := h m (List.mem_cons_self _ _)
    have hrest : ∀ x ∈ ms, k ∉ keysOf x.Name := fun x hx => h x (List.mem_cons_of_mem _ hx)
    show (handleElements ms (handleElement m r)).get k = r.get k
    rw [ih _ hrest, get_handleElement, if_neg hm]

theorem handleElements_append (xs ys : List Measurement) (r : Registry) :
    handleElements (xs ++ ys) r = handleElements ys (handleElements xs r) := by
  simp [handleElements, List.foldl_append]

/-- C6: a measurement whose name matches none of the five patterns (it does
not start with `voltage_`, `power_delivered_`, `power_returned_` or `energy_`,
which holds a fortiori when it does not contain `energy_`, and it is not
`gas_delivered`) leaves the registry exactly as it was, whatever the prior
registry; and a scrape whose snapshot is that one measurement ends in a normal
response (status 200) rendered from the unchanged registry, not in an error. -/
theorem unmatched_name_ignored (name : GoString) (v : Float64) (u : GoString)
    (r : Registry)
    (h1 : ¬ "voltage_".data <+: name)
    (h2 : ¬ "power_delivered_".data <+: name)
    (h3 : ¬ "power_returned_".data <+: name)
    (h4 : ¬ "energy_".data <+: name)
    (h5 : name ≠ "gas_delivered".data) :
    handleElement ⟨name, v, u⟩ r = r ∧
    ∀ (up : Upstream) (resp : HttpResponse) (body : List Nat),
      up.get = .ok resp → resp.Body = .ok body →
      (up.unmarshal body ⟨[]⟩).1.Actual = [⟨name, v, u⟩] →
      handle up r = Outcome.respond 200 r := by
  have hf : ∀ p : GoString, ¬ p <+: name → HasPrefix name p = false := by
    intro p hp
    cases hb : HasPrefix name p
    · rfl
    · exact absurd ((HasPrefix_iff _ _).mp hb) hp
  have he : handleElement ⟨name, v, u⟩ r = r := by
    rw [handleElement_eq_foldl]
    simp only [keysOf_unmatched name (hf _ h1) (hf _ h2) (hf _ h3) (hf _ h4) h5,
      List.foldl_nil]
  refine ⟨he, ?_⟩
  intro up resp body hget hbody hdec
  unfold handle
  rw [hget]
  simp only [hbody, hdec, handleElements, List.foldl_cons, List.foldl_nil, he]

/-- An instance of C6: `current_l1` matches no pattern and is ignored. -/
theorem unmatched_name_ignored_witness :
    (¬ "voltage_".data <+: "current_l1".data) ∧
    (¬ "power_delivered_".data <+: "current_l1".data) ∧
    (¬ "power_returned_".data <+: "current_l1".data) ∧
    (¬ "energy_".data <+: "current_l1".data) ∧
    "current_l1".data ≠ "gas_delivered".data ∧
    handleElement ⟨"current_l1".data, ⟨4⟩, "A".data⟩ Registry.init = Registry.init :=
  ⟨by decide, by decide, by decide, by decide, by decide,
    (unmatched_name_ignored "current_l1".data ⟨4⟩ "A".data Registry.init
      (by decide) (by decide) (by decide) (by decide) (by decide)).1⟩

/-- C7: for every measurement name at most one of the five conditions of the
loop body holds; the number of gauge writes is the number of conditions that
hold; so processing one measurement writes at most one family and label
combination, and every gauge other than that one keeps its state. -/
theorem at_most_one_rule (name : GoString) :
    (rulesMatched name).count true ≤ 1 ∧
    (keysOf name).length = (rulesMatched name).count true ∧
    ∀ (v : Float64) (u : GoString) (r : Registry),
      ∃ k : GaugeKey, ∀ j : GaugeKey, j ≠ k →
        (handleElement ⟨name, v, u⟩ r).get j = r.get j := by
  have hlen : (keysOf name).length = (rulesMatched name).count true := by
    unfold keysOf rulesMatched
    by_cases h5 : name = "gas_delivered".data
    · cases h1 : HasPrefix name "voltage_".data <;>
      cases h2 : HasPrefix name "power_delivered_".data <;>
      cases h3 : HasPrefix name "power_returned_".data <;>
      cases h4 : HasPrefix name "energy_".data <;>
      simp [h5]
    · cases h1 : HasPrefix name "voltage_".data <;>
      cases h2 : HasPrefix name "power_delivered_".data <;>
      cases h3 : HasPrefix name "power_returned_".data <;>
      cases h4 : HasPrefix name "energy_".data <;>
      simp [h5]
  refine ⟨hlen ▸ keysOf_length_le_one name, hlen, ?_⟩
  intro v u r
  rcases keysOf_nil_or_singleton name with h | ⟨k, h⟩
  · refine ⟨GaugeKey.gasDelivered, fun j _ => ?_⟩
    rw [get_handleElement]
    simp [h]
  · refine ⟨k, fun j hj => ?_⟩
    rw [get_handleElement]
    simp [h, hj]

/-- When the body was read, the request always ends in a 200 response
rendered from the registry to which the loop applied whatever `json.Unmarshal`
left in `response`; the error it returned plays no role. -/
theorem handle_of_body (up : Upstream) (reg : Registry) (resp : HttpResponse)
    (body : List Nat) (hget : up.get = .ok resp) (hbody : resp.Body = .ok body) :
    handle up reg
      = Outcome.respond 200 (handleElements (up.unmarshal body ⟨[]⟩).1.Actual reg) := by
  unfold handle
  rw [hget]
  simp only [hbody]

/-- C8, as stated, fails: when `http.Get` returns an error, and likewise when
reading the body does, `handle` ends in `os.Exit(1)`: no response is written,
in particular no server-error response, and the process does not keep
running. -/
theorem upstream_failure_counterexample :
    (handle ⟨.error "connection refused", fun _ dst => (dst, none)⟩ Registry.init).status
      = none ∧
    (handle ⟨.error "connection refused", fun _ dst => (dst, none)⟩
      Registry.init).isServerError = false ∧
    (handle ⟨.error "connection refused", fun _ dst => (dst, none)⟩
      Registry.init).keepsRunning = false ∧
    (handle ⟨.ok ⟨200, .error "unexpected EOF"⟩, fun _ dst => (dst, none)⟩
      Registry.init).status = none ∧
    (handle ⟨.ok ⟨200, .error "unexpected EOF"⟩, fun _ dst => (dst, none)⟩
      Registry.init).keepsRunning = false :=
  ⟨rfl, rfl, rfl, rfl, rfl⟩

/-- C8, amended: if the upstream HTTP call fails (the GET returns an error, or
reading the response body fails), `handle` writes no response and terminates
the process with exit status 1; up to that moment the registry holds exactly
the values it held before the request. -/
theorem upstream_failure_exits (up : Upstream) (reg : Registry)
    (h : up.callFails = true) :
    handle up reg = Outcome.exit 1 reg ∧
    (handle up reg).status = none ∧
    (handle up reg).keepsRunning = false ∧
    (handle up reg).registry = reg := by
  have he : handle up reg = Outcome.exit 1 reg := by
    unfold Upstream.callFails at h
    unfold handle
    cases hget : up.get with
    | error e => rfl
    | ok resp =>
      rw [hget] at h
      cases hbody : resp.Body with
      | error e => simp only [hbody]
      | ok body =>
        simp only [hbody] at h
        exact absurd h (by decide)
  rw [he]
  exact ⟨rfl, rfl, rfl, rfl⟩

/-- An instance of amended C8: a refused connection, with the registry holding
a voltage, ends the process with status 1 and the registry as it was. -/
theorem upstream_failure_exits_witness :
    Upstream.callFails ⟨.error "connection refused", fun _ dst => (dst, none)⟩ = true ∧
    handle ⟨.error "connection refused", fun _ dst => (dst, none)⟩
        (Registry.init.setVoltage "l1".data ⟨230⟩)
      = Outcome.exit 1 (Registry.init.setVoltage "l1".data ⟨230⟩) :=
  ⟨rfl,
    (upstream_failure_exits ⟨.error "connection refused", fun _ dst => (dst, none)⟩
      (Registry.init.setVoltage "l1".data ⟨230⟩) rfl).1⟩

/-- C9 does not hold of the code: the error returned by `json.Unmarshal` is
never looked at (line 94), whereas the errors of `http.Get` and `io.ReadAll`
are checked before anything is written.  For the body `<html>` decoding fails
and the scrape is still answered with status 200.  For a body whose record
`voltage_l1` has the non-numeric value `x` decoding fails as well, yet the
record is applied with the zero value: `voltage{phase = l1}`, which held 3, is
overwritten with 0, and the scrape is answered with status 200, not as a
failed response. -/
theorem decode_error_unchecked :
    ((malformedUpstream.unmarshal htmlBody ⟨[]⟩).2 ≠ none ∧
      handle malformedUpstream (Registry.init.setVoltage "l1".data three)
        = Outcome.respond 200 (Registry.init.setVoltage "l1".data three) ∧
      (handle malformedUpstream
        (Registry.init.setVoltage "l1".data three)).isServerError = false) ∧
    ((nonNumericUpstream.unmarshal nonNumericBody ⟨[]⟩).2 ≠ none ∧
      handle nonNumericUpstream (Registry.init.setVoltage "l1".data three)
        = Outcome.respond 200
          ((Registry.init.setVoltage "l1".data three).setVoltage "l1".data zero) ∧
      (handle nonNumericUpstream
        (Registry.init.setVoltage "l1".data three)).isServerError = false ∧
      (Registry.init.setVoltage "l1".data three).voltage "l1".data = some three ∧
      (handle nonNumericUpstream
        (Registry.init.setVoltage "l1".data three)).registry.voltage "l1".data
        = some zero ∧
      zero ≠ three) := by
  have h1 : handle malformedUpstream (Registry.init.setVoltage "l1".data three)
      = Outcome.respond 200 (Registry.init.setVoltage "l1".data three) := by
    rw [handle_of_body malformedUpstream _ ⟨200, .ok htmlBody⟩ htmlBody rfl rfl]
    rfl
  have h2 : handle nonNumericUpstream (Registry.init.setVoltage "l1".data three)
      = Outcome.respond 200
        ((Registry.init.setVoltage "l1".data three).setVoltage "l1".data zero) := by
    rw [handle_of_body nonNumericUpstream _ ⟨200, .ok nonNumericBody⟩ nonNumericBody
      rfl rfl]
    rfl
  refine ⟨⟨by decide, h1, ?_⟩, ⟨by decide, h2, ?_, ?_, ?_, by decide⟩⟩
  · rw [h1]
    rfl
  · rw [h2]
    rfl
  · simp [Registry.setVoltage]
  · rw [h2]
    simp [Outcome.registry, Registry.setVoltage]

/-- C10: after the whole list is processed from any prior registry, a gauge to
which some measurement maps holds the value of the last such measurement in
list order (whatever the earlier ones carried: nothing is summed), and a gauge
to which no measurement of the list maps reads exactly what it read before
(same existence, same value). -/
theorem last_write_wins (ms : List Measurement) (r : Registry) (k : GaugeKey) :
    (∀ (before : List Measurement) (m : Measurement) (after : List Measurement),
      ms = before ++ m :: after → k ∈ keysOf m.Name →
      (∀ x ∈ after, k ∉ keysOf x.Name) →
      (handleElements ms r).get k = some m.Value) ∧
    ((∀ m ∈ ms, k ∉ keysOf m.Name) → (handleElements ms r).get k = r.get k) ∧
    (handleElements ms r).get k
      = (match ms.reverse.find? (mapsTo k) with
        | some m => some m.Value
        | none => r.get k) := by
  refine ⟨?_, get_handleElements_of_not_mapped ms r k, ?_⟩
  · intro before m after hms hm hafter
    subst hms
    rw [handleElements_append]
    show (handleElements after (handleElement m (handleElements before r))).get k = _
    rw [get_handleElements_of_not_mapped after _ k hafter, get_handleElement, if_pos hm]
  · induction ms using List.reverseRecOn with
    | nil => rfl
    | append_singleton xs m ih =>
      rw [handleElements_concat, get_handleElement, List.reverse_concat, List.find?_cons]
      by_cases hm : k ∈ keysOf m.Name
      · simp [mapsTo, hm]
      · simp only [mapsTo, hm, decide_False, if_false]
        exact ih

/-- An instance of C10: in the list `voltage_l1 = 1, voltage_l2 = 5,
voltage_l1 = 3` the last measurement mapping to `voltage{phase = l1}` carries
3, and that is what the gauge holds afterwards (not 1, not 4). -/
theorem last_write_wins_witness :
    (handleElements
      [⟨"voltage_l1".data, ⟨1⟩, "V".data⟩, ⟨"voltage_l2".data, ⟨5⟩, "V".data⟩,
       ⟨"voltage_l1".data, ⟨3⟩, "V".data⟩] Registry.init).get
      (GaugeKey.voltage "l1".data) = some ⟨3⟩ :=
  (last_write_wins
    [⟨"voltage_l1".data, ⟨1⟩, "V".data⟩, ⟨"voltage_l2".data, ⟨5⟩, "V".data⟩,
     ⟨"voltage_l1".data, ⟨3⟩, "V".data⟩] Registry.init (GaugeKey.voltage "l1".data)).1
    [⟨"voltage_l1".data, ⟨1⟩, "V".data⟩, ⟨"voltage_l2".data, ⟨5⟩, "V".data⟩]
    ⟨"voltage_l1".data, ⟨3⟩, "V".data⟩ [] rfl (by decide) (by simp)

/-- C11, as stated, fails: the upstream answers 503 with a body that decodes to
the measurement `voltage_l1 = 1`; `handle` answers the scrape with status 200,
not with an error, and the measurement is applied to the registry. -/
theorem upstream_status_counterexample :
    handle ⟨.ok ⟨503, .ok voltageBody⟩,
        fun _ _ => (⟨[⟨"voltage_l1".data, one, "V".data⟩]⟩, none)⟩ Registry.init
      = Outcome.respond 200 (Registry.init.setVoltage "l1".data one) ∧
    (handle ⟨.ok ⟨503, .ok voltageBody⟩,
        fun _ _ => (⟨[⟨"voltage_l1".data, one, "V".data⟩]⟩, none)⟩
      Registry.init).isServerError = false ∧
    (handle ⟨.ok ⟨503, .ok voltageBody⟩,
        fun _ _ => (⟨[⟨"voltage_l1".data, one, "V".data⟩]⟩, none)⟩
      Registry.init).registry.voltage "l1".data = some one := by
  have h : handle ⟨.ok ⟨503, .ok voltageBody⟩,
        fun _ _ => (⟨[⟨"voltage_l1".data, one, "V".data⟩]⟩, none)⟩ Registry.init
      = Outcome.respond 200 (Registry.init.setVoltage "l1".data one) := by
    rw [handle_of_body _ _ ⟨503, .ok voltageBody⟩ voltageBody rfl rfl]
    rfl
  refine ⟨h, ?_, ?_⟩
  · rw [h]
    rfl
  · rw [h]
    simp [Outcome.registry, Registry.setVoltage]

/-- C11, amended: the HTTP status of the upstream answer is not inspected.
Whatever the status code, 2xx or not, once the body has been read `handle`
applies every measurement that decoding left in the response and answers the
scrape with status 200, exactly as it does for an upstream status of 200. -/
theorem upstream_status_ignored (status : Nat) (body : List Nat)
    (unmarshal : List Nat → Response → Response × Option String) (reg : Registry) :
    handle ⟨.ok ⟨status, .ok body⟩, unmarshal⟩ reg
      = Outcome.respond 200 (handleElements (unmarshal body ⟨[]⟩).1.Actual reg) ∧
    handle ⟨.ok ⟨status, .ok body⟩, unmarshal⟩ reg
      = handle ⟨.ok ⟨200, .ok body⟩, unmarshal⟩ reg := by
  constructor
  · exact handle_of_body _ reg ⟨status, .ok body⟩ body rfl rfl
  · rw [handle_of_body _ reg ⟨status, .ok body⟩ body rfl rfl,
      handle_of_body _ reg ⟨200, .ok body⟩ body rfl rfl]

/-- The loop body does not read the field `Unit`. -/
theorem handleElement_unit (name : GoString) (v : Float64) (u u2 : GoString)
    (r : Registry) : handleElement ⟨name, v, u⟩ r = handleElement ⟨name, v, u2⟩ r :=
  rfl

/-- C13: the registry written for a snapshot does not depend on the `Unit`
fields.  Two lists of measurements that agree position by position on `Name`
and `Value` give the same registry from the same prior registry, and the value
stored in every gauge a measurement maps to is its `Value` as it is. -/
theorem unit_not_persisted (ms ms2 : List Measurement) (r : Registry)
    (h : ms.map (fun m => (m.Name, m.Value)) = ms2.map (fun m => (m.Name, m.Value))) :
    handleElements ms r = handleElements ms2 r ∧
    ∀ (m : Measurement) (k : GaugeKey) (r0 : Registry),
      k ∈ keysOf m.Name → (handleElement m r0).get k = some m.Value := by
  constructor
  · induction ms generalizing ms2 r with
    | nil =>
      cases ms2 with
      | nil => rfl
      | cons b bs => simp at h
    | cons a as ih =>
      cases ms2 with
      | nil => simp at h
      | cons b bs =>
        simp only [List.map_cons, List.cons.injEq, Prod.mk.injEq] at h
        obtain ⟨⟨hn, hv⟩, hrest⟩ := h
        have hab : handleElement a r = handleElement b r := by
          cases a with
          | mk an av au =>
            cases b with
            | mk bn bv bu =>
              simp only at hn hv
              subst hn
              subst hv
              exact handleElement_unit an av au bu r
        show handleElements as (handleElement a r) = handleElements bs (handleElement b r)
        rw [hab]
        exact ih bs (handleElement b r) hrest
  · intro m k r0 hk
    rw [get_handleElement, if_pos hk]

/-- An instance of C13: the same two measurements once with units `V` and `kW`
and once with units `mV` and empty. -/
theorem unit_not_persisted_witness :
    handleElements
        [⟨"voltage_l1".data, ⟨230⟩, "V".data⟩, ⟨"power_delivered_l1".data, ⟨2⟩, "kW".data⟩]
        Registry.init
      = handleElements
        [⟨"voltage_l1".data, ⟨230⟩, "mV".data⟩, ⟨"power_delivered_l1".data, ⟨2⟩, "".data⟩]
        Registry.init :=
  (unit_not_persisted
    [⟨"voltage_l1".data, ⟨230⟩, "V".data⟩, ⟨"power_delivered_l1".data, ⟨2⟩, "kW".data⟩]
    [⟨"voltage_l1".data, ⟨230⟩, "mV".data⟩, ⟨"power_delivered_l1".data, ⟨2⟩, "".data⟩]
    Registry.init rfl).1

/-- C14: in a request whose upstream call succeeded, the response is rendered
from the registry obtained by applying every measurement of the fetched
snapshot, in order, to the prior registry: the rendered state is the state
after the whole loop, and it is the state the process continues with. -/
theorem render_after_update (up : Upstream) (reg : Registry) (resp : HttpResponse)
    (body : List Nat) (snapshot : List Measurement)
    (hget : up.get = .ok resp) (hbody : resp.Body = .ok body)
    (hsnap : (up.unmarshal body ⟨[]⟩).1.Actual = snapshot) :
    (handle up reg).rendered = some (handleElements snapshot reg) ∧
    (handle up reg).status = some 200 ∧
    (handle up reg).registry = handleElements snapshot reg := by
  rw [handle_of_body up reg resp body hget hbody, hsnap]
  exact ⟨rfl, rfl, rfl⟩

/-- An instance of C14: the prior registry holds `voltage{l1} = 1`, the
snapshot carries `voltage_l1 = 2` and then `voltage_l1 = 3`; the registry that
is rendered holds 3, neither the prior 1 nor the intermediate 2. -/
theorem render_after_update_witness :
    ∃ rendered : Registry,
      (handle ⟨.ok ⟨200, .ok twoVoltagesBody⟩,
          fun _ _ => (⟨[⟨"voltage_l1".data, two, "V".data⟩,
            ⟨"voltage_l1".data, three, "V".data⟩]⟩, none)⟩
        (Registry.init.setVoltage "l1".data one)).rendered = some rendered ∧
      rendered.voltage "l1".data = some three := by
  refine ⟨_, (render_after_update
    ⟨.ok ⟨200, .ok twoVoltagesBody⟩,
      fun _ _ => (⟨[⟨"voltage_l1".data, two, "V".data⟩,
        ⟨"voltage_l1".data, three, "V".data⟩]⟩, none)⟩
    (Registry.init.setVoltage "l1".data one) ⟨200, .ok twoVoltagesBody⟩ twoVoltagesBody
    [⟨"voltage_l1".data, two, "V".data⟩, ⟨"voltage_l1".data, three, "V".data⟩]
    rfl rfl rfl).1, ?_⟩
  decide

/-- C15: if `DSMR_BASE_URL` is absent or empty, `main` writes the message
`DSMR_BASE_URL is empty` to standard error and exits with status 1, and that is
all it does: no collector is registered, no handler installed, no listener
bound.  If the variable holds a non-empty value, `main` does not exit there:
it registers the four collectors, installs the `/metrics` handler and reaches
`ListenAndServe`. -/
theorem base_url_required (DSMR_BASE_URL : Option GoString) (served : Option String) :
    (DSMR_BASE_URL = none ∨ DSMR_BASE_URL = some [] →
      main DSMR_BASE_URL served
        = [Event.fprintfStderr "DSMR_BASE_URL is empty", Event.exit 1]) ∧
    (∀ value : GoString, value ≠ [] → DSMR_BASE_URL = some value →
      ∃ rest : List Event,
        main DSMR_BASE_URL served
          = [Event.mustRegister "voltage", Event.mustRegister "power",
             Event.mustRegister "energyTransported", Event.mustRegister "gasDelivered",
             Event.handleFunc "/metrics",
             Event.logPrintf "Server is listening on port 8080",
             Event.listenAndServe ":8080"] ++ rest ∧
        Event.fprintfStderr "DSMR_BASE_URL is empty" ∉ main DSMR_BASE_URL served) := by
  constructor
  · rintro (h | h) <;> subst h <;> rfl
  · intro value hv h
    subst h
    have hne : ¬ Getenv (some value) = "".data := hv
    cases served with
    | none =>
      refine ⟨[], ?_, ?_⟩
      · simp [main, hne]
      · simp [main, hne]
    | some err =>
      refine ⟨[Event.logFatal err, Event.exit 1], ?_, ?_⟩
      · simp [main, hne]
      · simp [main, hne]

/-- Two instances of C15: the variable absent, and the variable set to
`http://dsmr`. -/
theorem base_url_required_witness :
    main none none = [Event.fprintfStderr "DSMR_BASE_URL is empty", Event.exit 1] ∧
    Event.exit 1 ∉ main (some "http://dsmr".data) none ∧
    Event.listenAndServe ":8080" ∈ main (some "http://dsmr".data) none := by
  refine ⟨(base_url_required none none).1 (Or.inl rfl), ?_, ?_⟩
  · decide
  · decide

/-! ## Writes, interleavings and invariants -/

/-- Two registries in which every gauge reads the same are equal. -/
theorem Registry.ext_get (r1 r2 : Registry) (h : ∀ k, r1.get k = r2.get k) : r1 = r2 := by
  cases r1 with
  | mk v1 p1 e1 g1 =>
    cases r2 with
    | mk v2 p2 e2 g2 =>
      have hv : v1 = v2 := funext fun phase => h (GaugeKey.voltage phase)
      have hp : p1 = p2 := funext fun dp => h (GaugeKey.power dp.1 dp.2)
      have he : e1 = e2 := funext fun dt => h (GaugeKey.energyTransported dt.1 dt.2)
      have hg : g1 = g2 := Option.some.inj (h GaugeKey.gasDelivered)
      rw [hv, hp, he, hg]

theorem handleElements_eq_applyWrites (ms : List Measurement) (r : Registry) :
    handleElements ms r = applyWrites (writesOf ms) r := by
  induction ms generalizing r with
  | nil => rfl
  | cons m ms ih =>
    show handleElements ms (handleElement m r) = _
    rw [ih, handleElement_eq_foldl]
    simp [writesOf, applyWrites, List.foldl_append, List.foldl_map]

theorem mem_writesOf (ms : List Measurement) (k : GaugeKey) (v : Float64)
    (h : (k, v) ∈ writesOf ms) : ∃ m ∈ ms, k ∈ keysOf m.Name ∧ m.Value = v := by
  induction ms with
  | nil => simp [writesOf] at h
  | cons m ms ih =>
    simp only [writesOf, List.mem_append, List.mem_map, Prod.mk.injEq] at h
    rcases h with ⟨j, hj, hjk, hv⟩ | h
    · subst hjk
      exact ⟨m, List.mem_cons_self _ _, hj, hv⟩
    · obtain ⟨x, hx, hk, hv⟩ := ih h
      exact ⟨x, List.mem_cons_of_mem _ hx, hk, hv⟩

/-- A value read after a sequence of writes was written by one of them, or was
there before. -/
theorem get_applyWrites (ws : List (GaugeKey × Float64)) (r : Registry) (k : GaugeKey)
    (v : Float64) (h : (applyWrites ws r).get k = some v) :
    (k, v) ∈ ws ∨ r.get k = some v := by
  induction ws generalizing r with
  | nil => exact Or.inr h
  | cons w ws ih =>
    have h2 : (applyWrites ws (r.set w.1 w.2)).get k = some v := h
    rcases ih _ h2 with hmem | hget
    · exact Or.inl (List.mem_cons_of_mem _ hmem)
    · by_cases hk : k = w.1
      · subst hk
        rw [get_set_self] at hget
        have hv : w.2 = v := Option.some.inj hget
        subst hv
        exact Or.inl (List.mem_cons_self _ _)
      · rw [get_set_of_ne _ _ _ _ hk] at hget
        exact Or.inr hget

/-- Every element of a merge comes from one of the merged sequences. -/
theorem Interleaving.mem_source {α : Type} {ls : List (List α)} {ws : List α}
    (h : Interleaving ls ws) : ∀ w ∈ ws, ∃ l ∈ ls, w ∈ l := by
  induction h with
  | done ls _ =>
    intro w hw
    simp at hw
  | step before w0 l after ws _ ih =>
    intro w hw
    rcases List.mem_cons.mp hw with rfl | hw
    · exact ⟨w :: l, by simp, List.mem_cons_self _ _⟩
    · obtain ⟨l2, hl2, hwl2⟩ := ih w hw
      rcases List.mem_append.mp hl2 with hb | ha
      · exact ⟨l2, List.mem_append_left _ hb, hwl2⟩
      · rcases List.mem_cons.mp ha with rfl | ha
        · exact ⟨w0 :: l2, by simp, List.mem_cons_of_mem _ hwl2⟩
        · exact ⟨l2, List.mem_append_right _ (List.mem_cons_of_mem _ ha), hwl2⟩

theorem Interleaving.cons_nil {α : Type} {ls : List (List α)} {ws : List α}
    (h : Interleaving ls ws) : Interleaving ([] :: ls) ws := by
  induction h with
  | done ls hall =>
    refine Interleaving.done _ ?_
    intro l hl
    rcases List.mem_cons.mp hl with rfl | hl
    · rfl
    · exact hall l hl
  | step before w l after ws _ ih =>
    exact Interleaving.step ([] :: before) w l after ws ih

/-- Handling the requests one after the other is one of the interleavings. -/
theorem Interleaving.sequential {α : Type} (ls : List (List α)) :
    Interleaving ls (ls.foldr (fun l acc => l ++ acc) []) := by
  induction ls with
  | nil => exact Interleaving.done [] (by simp)
  | cons l ls ih =>
    induction l with
    | nil => exact ih.cons_nil
    | cons w l ihl => exact Interleaving.step [] w l ls _ ihl

theorem handleSnapshots_eq_applyWrites (snapshots : List (List Measurement))
    (r : Registry) :
    handleSnapshots snapshots r
      = applyWrites ((snapshots.map writesOf).foldr (fun l acc => l ++ acc) []) r := by
  induction snapshots generalizing r with
  | nil => rfl
  | cons s rest ih =>
    show handleSnapshots rest (handleElements s r) = _
    rw [ih, handleElements_eq_applyWrites]
    simp [applyWrites, List.foldl_append]

/-- C12: each label's value is one that was fetched.  Take any snapshots and
any merge `ws` of their write sequences (each request keeps the order of its
own writes, the requests are interleaved at will), and stop after any number
`n` of those writes, starting from the initial registry: every voltage, power
and energy_transported gauge that exists then holds the `Value` of a
measurement of one of the snapshots whose name maps to that gauge. -/
theorem values_were_fetched (snapshots : List (List Measurement))
    (ws : List (GaugeKey × Float64)) (h : Interleaving (snapshots.map writesOf) ws)
    (n : Nat) (k : GaugeKey) (v : Float64) (hk : k ≠ GaugeKey.gasDelivered)
    (hv : (applyWrites (ws.take n) Registry.init).get k = some v) :
    ∃ snapshot ∈ snapshots, ∃ m ∈ snapshot, k ∈ keysOf m.Name ∧ m.Value = v := by
  rcases get_applyWrites _ _ k v hv with hmem | hinit
  · obtain ⟨l, hl, hwl⟩ := h.mem_source (k, v) (List.mem_of_mem_take hmem)
    obtain ⟨snapshot, hs, rfl⟩ := List.mem_map.mp hl
    obtain ⟨m, hm, hkm, hval⟩ := mem_writesOf snapshot k v hwl
    exact ⟨snapshot, hs, m, hm, hkm, hval⟩
  · cases k with
    | voltage phase => simp [Registry.get, Registry.init] at hinit
    | power direction phase => simp [Registry.get, Registry.init] at hinit
    | energyTransported direction tariff => simp [Registry.get, Registry.init] at hinit
    | gasDelivered => exact absurd rfl hk

/-- An instance of C12: the requests `voltage_l1 = 1, voltage_l2 = 2` and
`voltage_l1 = 3` with the second request's write landing between the two writes
of the first; `voltage{l1}` then holds 3, the value the second request
fetched. -/
theorem values_were_fetched_witness :
    Interleaving
      ([[⟨"voltage_l1".data, one, "V".data⟩, ⟨"voltage_l2".data, two, "V".data⟩],
        [⟨"voltage_l1".data, three, "V".data⟩]].map writesOf)
      [(GaugeKey.voltage "l1".data, one), (GaugeKey.voltage "l1".data, three),
       (GaugeKey.voltage "l2".data, two)] ∧
    (applyWrites
      ([(GaugeKey.voltage "l1".data, one), (GaugeKey.voltage "l1".data, three),
        (GaugeKey.voltage "l2".data, two)].take 2) Registry.init).get
      (GaugeKey.voltage "l1".data) = some three ∧
    ∃ snapshot ∈
        [[(⟨"voltage_l1".data, one, "V".data⟩ : Measurement),
          ⟨"voltage_l2".data, two, "V".data⟩],
         [⟨"voltage_l1".data, three, "V".data⟩]],
      ∃ m ∈ snapshot, GaugeKey.voltage "l1".data ∈ keysOf m.Name ∧ m.Value = three := by
  have hi : Interleaving
      ([[⟨"voltage_l1".data, one, "V".data⟩, ⟨"voltage_l2".data, two, "V".data⟩],
        [⟨"voltage_l1".data, three, "V".data⟩]].map writesOf)
      [(GaugeKey.voltage "l1".data, one), (GaugeKey.voltage "l1".data, three),
       (GaugeKey.voltage "l2".data, two)] := by
    have hw : ([[⟨"voltage_l1".data, one, "V".data⟩, ⟨"voltage_l2".data, two, "V".data⟩],
        [⟨"voltage_l1".data, three, "V".data⟩]].map writesOf)
        = [[(GaugeKey.voltage "l1".data, one), (GaugeKey.voltage "l2".data, two)],
           [(GaugeKey.voltage "l1".data, three)]] := by decide
    rw [hw]
    refine Interleaving.step [] _ _ [_] _ ?_
    refine Interleaving.step [_] _ _ [] _ ?_
    refine Interleaving.step [] _ _ [_] _ ?_
    exact Interleaving.done _ (by simp)
  have hv : (applyWrites
      ([(GaugeKey.voltage "l1".data, one), (GaugeKey.voltage "l1".data, three),
        (GaugeKey.voltage "l2".data, two)].take 2) Registry.init).get
      (GaugeKey.voltage "l1".data) = some three := by decide
  exact ⟨hi, hv, values_were_fetched _ _ hi 2 _ _ (by decide) hv⟩

/-- A gauge that exists after a snapshot was processed existed before or is
one a measurement of the snapshot maps to. -/
theorem get_handleElements_source (ms : List Measurement) (r : Registry) (k : GaugeKey)
    (v : Float64) (h : (handleElements ms r).get k = some v) :
    r.get k = some v ∨ ∃ m ∈ ms, k ∈ keysOf m.Name ∧ m.Value = v := by
  rw [handleElements_eq_applyWrites] at h
  rcases get_applyWrites _ _ k v h with hmem | hget
  · exact Or.inr (mem_writesOf ms k v hmem)
  · exact Or.inl hget

theorem get_handleSnapshots_source (snapshots : List (List Measurement)) (r : Registry)
    (k : GaugeKey) (v : Float64) (h : (handleSnapshots snapshots r).get k = some v) :
    r.get k = some v ∨
      ∃ snapshot ∈ snapshots, ∃ m ∈ snapshot, k ∈ keysOf m.Name ∧ m.Value = v := by
  induction snapshots generalizing r with
  | nil => exact Or.inl h
  | cons s rest ih =>
    have h2 : (handleSnapshots rest (handleElements s r)).get k = some v := h
    rcases ih _ h2 with hget | ⟨snapshot, hs, m, hm, hk, hv⟩
    · rcases get_handleElements_source s r k v hget with hr | ⟨m, hm, hk, hv⟩
      · exact Or.inl hr
      · exact Or.inr ⟨s, List.mem_cons_self _ _, m, hm, hk, hv⟩
    · exact Or.inr ⟨snapshot, List.mem_cons_of_mem _ hs, m, hm, hk, hv⟩

theorem energyDirection_cases (name : GoString) :
    energyDirection name = "delivered".data ∨ energyDirection name = "returned".data := by
  unfold energyDirection
  split
  · exact Or.inl rfl
  · exact Or.inr rfl

theorem energyTariff_cases (name : GoString) :
    energyTariff name = "high".data ∨ energyTariff name = "low".data := by
  unfold energyTariff
  split
  · exact Or.inl rfl
  · exact Or.inr rfl

/-- The energy gauge a name maps to carries the labels the energy rule computes. -/
theorem mem_keysOf_energy (name d t : GoString)
    (h : GaugeKey.energyTransported d t ∈ keysOf name) :
    d = energyDirection name ∧ t = energyTariff name := by
  cases h1 : HasPrefix name "voltage_".data
  · cases h2 : HasPrefix name "power_delivered_".data
    · cases h3 : HasPrefix name "power_returned_".data
      · cases h4 : HasPrefix name "energy_".data
        · by_cases h5 : name = "gas_delivered".data
          · rw [h5, keysOf_gas_delivered] at h
            simp at h
          · rw [keysOf_unmatched name h1 h2 h3 h4 h5] at h
            simp at h
        · rw [keysOf_energy name h4] at h
          simpa using h
      · rw [keysOf_power_returned name h3] at h
        simp at h
    · rw [keysOf_power_delivered name h2] at h
      simp at h
  · rw [keysOf_voltage name h1] at h
    simp at h

/-- The power gauge a name maps to has direction `delivered` or `returned`. -/
theorem mem_keysOf_power (name d p : GoString) (h : GaugeKey.power d p ∈ keysOf name) :
    d = "delivered".data ∨ d = "returned".data := by
  cases h1 : HasPrefix name "voltage_".data
  · cases h2 : HasPrefix name "power_delivered_".data
    · cases h3 : HasPrefix name "power_returned_".data
      · cases h4 : HasPrefix name "energy_".data
        · by_cases h5 : name = "gas_delivered".data
          · rw [h5, keysOf_gas_delivered] at h
            simp at h
          · rw [keysOf_unmatched name h1 h2 h3 h4 h5] at h
            simp at h
        · rw [keysOf_energy name h4] at h
          simp at h
      · rw [keysOf_power_returned name h3] at h
        simp only [List.mem_singleton, GaugeKey.power.injEq] at h
        exact Or.inr h.1
    · rw [keysOf_power_delivered name h2] at h
      simp only [List.mem_singleton, GaugeKey.power.injEq] at h
      exact Or.inl h.1
  · rw [keysOf_voltage name h1] at h
    simp at h

/-- C16: starting from the initial registry, after any sequence of snapshots
has been processed, every gauge present in the energy_transported family has
direction `delivered` or `returned` and tariff `low` or `high`, so that any
list of distinct label combinations present in the family has at most four
entries; and every gauge present in the power family has direction `delivered`
or `returned`. -/
theorem label_domain (snapshots : List (List Measurement)) :
    (∀ d t : GoString,
      (handleSnapshots snapshots Registry.init).energyTransported (d, t) ≠ none →
      (d = "delivered".data ∨ d = "returned".data) ∧ (t = "low".data ∨ t = "high".data)) ∧
    (∀ present : List (GoString × GoString), present.Nodup →
      (∀ dt ∈ present,
        (handleSnapshots snapshots Registry.init).energyTransported dt ≠ none) →
      present.length ≤ 4) ∧
    (∀ d p : GoString,
      (handleSnapshots snapshots Registry.init).power (d, p) ≠ none →
      d = "delivered".data ∨ d = "returned".data) := by
  have henergy : ∀ d t : GoString,
      (handleSnapshots snapshots Registry.init).energyTransported (d, t) ≠ none →
      (d = "delivered".data ∨ d = "returned".data) ∧
        (t = "low".data ∨ t = "high".data) := by
    intro d t hpresent
    obtain ⟨v, hv⟩ := Option.ne_none_iff_exists'.mp hpresent
    have hget : (handleSnapshots snapshots Registry.init).get
        (GaugeKey.energyTransported d t) = some v := hv
    rcases get_handleSnapshots_source snapshots _ _ v hget with hinit | ⟨_, _, m, _, hk, _⟩
    · simp [Registry.get, Registry.init] at hinit
    · obtain ⟨hd, ht⟩ := mem_keysOf_energy m.Name d t hk
      rw [hd, ht]
      exact ⟨energyDirection_cases _, (energyTariff_cases _).symm⟩
  refine ⟨henergy, ?_, ?_⟩
  · intro present hnodup hall
    have hsub : present ⊆ energyLabelDomain := by
      intro dt hdt
      obtain ⟨d, t⟩ := dt
      obtain ⟨hd, ht⟩ := henergy d t (hall (d, t) hdt)
      rcases hd with rfl | rfl <;> rcases ht with rfl | rfl <;> decide
    exact (hnodup.subperm hsub).length_le
  · intro d p hpresent
    obtain ⟨v, hv⟩ := Option.ne_none_iff_exists'.mp hpresent
    have hget : (handleSnapshots snapshots Registry.init).get (GaugeKey.power d p)
        = some v := hv
    rcases get_handleSnapshots_source snapshots _ _ v hget with hinit | ⟨_, _, m, _, hk, _⟩
    · simp [Registry.get, Registry.init] at hinit
    · exact mem_keysOf_power m.Name d p hk

/-- Two measurements that map to different gauges can be processed in either
order. -/
theorem handleElement_comm (a b : Measurement) (r : Registry)
    (h : ∀ k, k ∈ keysOf a.Name → k ∉ keysOf b.Name) :
    handleElement b (handleElement a r) = handleElement a (handleElement b r) := by
  apply Registry.ext_get
  intro k
  simp only [get_handleElement]
  by_cases ha : k ∈ keysOf a.Name
  · have hb : k ∉ keysOf b.Name := h k ha
    simp [ha, hb]
  · simp [ha]

/-- C17: if no two entries of a list of measurements map to the same family
and label combination, every permutation of the list gives the same final
registry from the same prior registry. -/
theorem order_independent (ms ms2 : List Measurement) (r : Registry)
    (hperm : ms.Perm ms2)
    (hdisj : ms.Pairwise (fun a b => ∀ k, k ∈ keysOf a.Name → k ∉ keysOf b.Name)) :
    handleElements ms r = handleElements ms2 r := by
  unfold handleElements
  apply List.Perm.foldl_eq' hperm
  intro x hx y hy z
  by_cases hxy : x = y
  · rw [hxy]
  · have hsymm : Symmetric
        (fun a b : Measurement => ∀ k, k ∈ keysOf a.Name → k ∉ keysOf b.Name) :=
      fun a b hab k hkb hka => hab k hka hkb
    exact handleElement_comm x y z (hdisj.forall hsymm hx hy hxy)

/-- An instance of C17: a voltage, a power and a gas measurement in two
orders. -/
theorem order_independent_witness :
    handleElements
        [⟨"voltage_l1".data, one, "V".data⟩, ⟨"power_returned_l2".data, two, "kW".data⟩,
         ⟨"gas_delivered".data, three, "m3".data⟩] Registry.init
      = handleElements
        [⟨"gas_delivered".data, three, "m3".data⟩, ⟨"voltage_l1".data, one, "V".data⟩,
         ⟨"power_returned_l2".data, two, "kW".data⟩] Registry.init :=
  order_independent
    [⟨"voltage_l1".data, one, "V".data⟩, ⟨"power_returned_l2".data, two, "kW".data⟩,
     ⟨"gas_delivered".data, three, "m3".data⟩]
    [⟨"gas_delivered".data, three, "m3".data⟩, ⟨"voltage_l1".data, one, "V".data⟩,
     ⟨"power_returned_l2".data, two, "kW".data⟩] Registry.init
    (by decide)
    (by
      have h1 : keysOf "voltage_l1".data = [GaugeKey.voltage "l1".data] := by decide
      have h2 : keysOf "power_returned_l2".data
          = [GaugeKey.power "returned".data "l2".data] := by decide
      have h3 : keysOf "gas_delivered".data = [GaugeKey.gasDelivered] := by decide
      simp [h1, h2, h3])

/-- C18: the energy classification is not injective on names.  The distinct
names `energy_delivered_tariff1` and `energy_delivered_tariff3` both map to
`energy_transported{delivered, low}`; a snapshot that holds the first and then
the second leaves the registry exactly as if the first had not been there, the
gauge holding the value of the second. -/
theorem energy_names_collide (v1 v3 : Float64) (u1 u3 : GoString) (r : Registry) :
    "energy_delivered_tariff1".data ≠ "energy_delivered_tariff3".data ∧
    keysOf "energy_delivered_tariff1".data
      = [GaugeKey.energyTransported "delivered".data "low".data] ∧
    keysOf "energy_delivered_tariff3".data
      = [GaugeKey.energyTransported "delivered".data "low".data] ∧
    handleElements
        [⟨"energy_delivered_tariff1".data, v1, u1⟩, ⟨"energy_delivered_tariff3".data, v3, u3⟩]
        r
      = handleElements [⟨"energy_delivered_tariff3".data, v3, u3⟩] r ∧
    (handleElements
        [⟨"energy_delivered_tariff1".data, v1, u1⟩, ⟨"energy_delivered_tariff3".data, v3, u3⟩]
        r).energyTransported ("delivered".data, "low".data) = some v3 := by
  have h1 : keysOf "energy_delivered_tariff1".data
      = [GaugeKey.energyTransported "delivered".data "low".data] := by decide
  have h3 : keysOf "energy_delivered_tariff3".data
      = [GaugeKey.energyTransported "delivered".data "low".data] := by decide
  have heq : handleElements
        [⟨"energy_delivered_tariff1".data, v1, u1⟩, ⟨"energy_delivered_tariff3".data, v3, u3⟩]
        r
      = handleElements [⟨"energy_delivered_tariff3".data, v3, u3⟩] r := by
    apply Registry.ext_get
    intro k
    simp only [handleElements, List.foldl_cons, List.foldl_nil, get_handleElement, h1, h3]
    split_ifs <;> rfl
  refine ⟨by decide, h1, h3, heq, ?_⟩
  rw [heq]
  have hget := get_handleElement ⟨"energy_delivered_tariff3".data, v3, u3⟩ r
    (GaugeKey.energyTransported "delivered".data "low".data)
  simp only [h3, List.mem_singleton, if_true] at hget
  exact hget

end Dsmr
